import Mathlib

/-!
Verification of the image editor (src/ImageEditor.ts, the complete first copy
of the file; the second copy is a stubbed draft).

Shallow embedding notes.
JavaScript numbers reachable in this program are either integers or NaN
(every arithmetic step is integer valued: parseInt yields an integer or NaN,
and all divisions are wrapped in Math.floor).  A channel value is therefore
modelled as an Option Int, where none models NaN and some n models the
integer n.  Float rounding beyond 2 to the 53rd is not modelled (no claim
touches such inputs).  NaN propagation of the JS operators is modelled by
the j-prefixed operations below.
-/

/-- One RGB pixel: three channels, each a JS number (Option Int, none = NaN).
Mirrors class Color of the source; its constructor initialises to (0,0,0). -/
structure Color where
  red : Option Int
  green : Option Int
  blue : Option Int
deriving DecidableEq

def Color.default : Color := ⟨some 0, some 0, some 0⟩

/-- A gray pixel: the same integer in all three channels. -/
def Color.gray (v : Int) : Color := ⟨some v, some v, some v⟩

/-- JS addition: NaN propagates. -/
def jadd : Option Int → Option Int → Option Int
  | some a, some b => some (a + b)
  | _, _ => none

/-- JS subtraction: NaN propagates. -/
def jsub : Option Int → Option Int → Option Int
  | some a, some b => some (a - b)
  | _, _ => none

/-- Math.floor(a / d) for integer a and positive integer d: floor division,
NaN propagates.  (Every division in the source has a positive literal or a
positive run length as divisor.) -/
def jfdiv (a : Option Int) (d : Int) : Option Int := a.map (fun n => Int.fdiv n d)

/-- Math.max(0, Math.min(v, 255)) on an integer. -/
def clamp255 (v : Int) : Int := max 0 (min v 255)

/-- Math.max(0, Math.min(v, 255)) on a JS number: both Math.min and Math.max
return NaN when an argument is NaN. -/
def jclamp : Option Int → Option Int
  | some v => some (clamp255 v)
  | none => none

/-- Sum of a list of JS numbers starting from 0 (NaN propagates). -/
def jsum (l : List (Option Int)) : Option Int := l.foldl jadd (some 0)

/-- The pixel grid, mirroring class EditImage: width columns of height cells
(source field pixels is an array of width columns, each of height Colors).
data is the cell content as a function of (x, y); only x < width and
y < height is meaningful, out-of-range points carry the constructor
default. -/
structure EditImage where
  width : Nat
  height : Nat
  data : Nat → Nat → Color

/-- In-place update of one cell (the in-range case of EditImage.set). -/
def setCell (g : EditImage) (x y : Nat) (c : Color) : EditImage :=
  { g with data := fun a b => if a = x ∧ b = y then c else g.data a b }

/-- EditImage.get with full JS semantics, for arbitrary integer coordinates:
the source body is pixels[x][y] with no bounds check.  If x is not a valid
column index, pixels[x] is undefined and indexing it throws a TypeError
(modelled as Except.error ()).  If x is valid but y is not, pixels[x][y] is
simply undefined (modelled as Except.ok none): no error at all. -/
def EditImage.getJS (g : EditImage) (x y : Int) : Except Unit (Option Color) :=
  if 0 ≤ x ∧ x < (g.width : Int) then
    if 0 ≤ y ∧ y < (g.height : Int) then .ok (some (g.data x.toNat y.toNat))
    else .ok none
  else .error ()

/-- EditImage.set with full JS semantics: pixels[x][y] = c with no bounds
check.  If x is not a valid column index the write throws (undefined[y]);
if x is valid the write always succeeds, even for out-of-range y (JS then
stores the value outside the tracked width x height rectangle: beyond the
array end, or as a string-keyed property for negative y; those stray slots
are never read back by the program and are not tracked here). -/
def EditImage.setJS (g : EditImage) (x y : Int) (c : Color) : Except Unit EditImage :=
  if 0 ≤ x ∧ x < (g.width : Int) then
    if 0 ≤ y ∧ y < (g.height : Int) then .ok (setCell g x.toNat y.toNat c)
    else .ok g
  else .error ()

/-- One step of an in-place filter loop: compute the new value of cell p
from the current grid contents and store it. -/
def applyStep (F : (Nat → Nat → Color) → Nat × Nat → Color)
    (g : EditImage) (p : Nat × Nat) : EditImage :=
  setCell g p.1 p.2 (F g.data p)

/-- Iteration order of motionblur, invert and grayscale: x ascending in the
outer loop, y ascending in the inner loop. -/
def colMajor (w h : Nat) : List (Nat × Nat) :=
  (List.range w).flatMap fun x => (List.range h).map fun y => (x, y)

/-- Iteration order of emboss: x descending in the outer loop, y descending
in the inner loop. -/
def colMajorRev (w h : Nat) : List (Nat × Nat) :=
  ((List.range w).reverse).flatMap fun x => ((List.range h).reverse).map fun y => (x, y)

/-- Per-cell body of grayscale: grayLevel = clamp(Math.floor((r+g+b)/3)),
written into all three channels. -/
def grayscaleF (d : Nat → Nat → Color) (p : Nat × Nat) : Color :=
  let c := d p.1 p.2
  let gl := jclamp (jfdiv (jadd (jadd c.red c.green) c.blue) 3)
  ⟨gl, gl, gl⟩

/-- ImageEditor.grayscale: in-place loop over all cells. -/
def grayscale (g : EditImage) : EditImage :=
  (colMajor g.width g.height).foldl (applyStep grayscaleF) g

/-- Per-cell body of invert: each channel becomes 255 - channel. -/
def invertF (d : Nat → Nat → Color) (p : Nat × Nat) : Color :=
  let c := d p.1 p.2
  ⟨jsub (some 255) c.red, jsub (some 255) c.green, jsub (some 255) c.blue⟩

/-- ImageEditor.invert: in-place loop over all cells. -/
def invert (g : EditImage) : EditImage :=
  (colMajor g.width g.height).foldl (applyStep invertF) g

/-- One comparison step of the emboss diff selection:
if Math.abs(candidate) is strictly greater than Math.abs(diff), the
candidate replaces diff.  A NaN candidate never wins (NaN > x is false). -/
def embossPick (diff : Int) (cand : Option Int) : Int :=
  match cand with
  | some v => if diff.natAbs < v.natAbs then v else diff
  | none => diff

/-- The emboss diff of a cell against its up-left neighbour: start from 0
and test the red, green, blue differences in that order with a strict
comparison, so ties keep the earlier channel. -/
def embossDiff (c ul : Color) : Int :=
  embossPick (embossPick (embossPick 0 (jsub c.red ul.red)) (jsub c.green ul.green))
    (jsub c.blue ul.blue)

/-- Per-cell body of emboss: diff is 0 on the boundary (x = 0 or y = 0),
otherwise the selected difference against the up-left neighbour as read
from the current grid contents; the cell becomes gray clamp(128 + diff). -/
def embossF (d : Nat → Nat → Color) (p : Nat × Nat) : Color :=
  let diff : Int :=
    if 0 < p.1 ∧ 0 < p.2 then embossDiff (d p.1 p.2) (d (p.1 - 1) (p.2 - 1)) else 0
  Color.gray (clamp255 (128 + diff))

/-- ImageEditor.emboss: in-place loop, x and y both descending, so the
up-left neighbour of a cell is visited later and is still unmodified when
read. -/
def emboss (g : EditImage) : EditImage :=
  (colMajorRev g.width g.height).foldl (applyStep embossF) g

/-- The accumulation loop of motionblur for one channel sel at cell (x,y):
start from the current cell value and add the cells x+1 .. maxX of the same
row, as read from the current grid contents. -/
def mbChan (d : Nat → Nat → Color) (sel : Color → Option Int)
    (x y maxX : Nat) : Option Int :=
  (List.range' (x + 1) (maxX - x)).foldl (fun acc i => jadd acc (sel (d i y)))
    (sel (d x y))

/-- Per-cell body of motionblur with window len (the Nat value of the
length argument, which the guard has checked to be at least 1):
maxX = Math.min(width - 1, x + len - 1), delta = maxX - x + 1, and each
channel becomes Math.floor(sum / delta). -/
def motionblurF (w len : Nat) (d : Nat → Nat → Color) (p : Nat × Nat) : Color :=
  let maxX := min (w - 1) (p.1 + len - 1)
  let delta : Int := (maxX - p.1 + 1 : Nat)
  ⟨jfdiv (mbChan d Color.red p.1 p.2 maxX) delta,
   jfdiv (mbChan d Color.green p.1 p.2 maxX) delta,
   jfdiv (mbChan d Color.blue p.1 p.2 maxX) delta⟩

/-- ImageEditor.motionblur: returns immediately when length < 1, otherwise
an in-place loop over all cells, x ascending then y ascending, so the cells
to the right that a step reads are still unmodified. -/
def motionblur (g : EditImage) (length : Int) : EditImage :=
  if length < 1 then g
  else (colMajor g.width g.height).foldl
    (applyStep (motionblurF g.width length.toNat)) g

/-- Whitespace for the purposes of parseInt trimming (the characters this
program can encounter; JS also trims some exotic Unicode spaces, never
produced here). -/
def isSpaceChar (c : Char) : Bool :=
  c == ' ' || c == '\n' || c == '\t' || c == '\r'

/-- The digits-prefix reading inside parseInt: value of the longest leading
run of decimal digits, or NaN (none) when there is no leading digit. -/
def digitsVal (cs : List Char) : Option Nat :=
  let ds := cs.takeWhile Char.isDigit
  if ds.isEmpty then none
  else some (ds.foldl (fun a c => a * 10 + (c.toNat - 48)) 0)

/-- JS parseInt on a character list: skip leading whitespace, an optional
sign, then the longest run of decimal digits; NaN when no digit follows.
(The hexadecimal 0x prefix of parseInt is not modelled: the program never
feeds it hexadecimal text.) -/
def parseIntChars (cs : List Char) : Option Int :=
  let t := cs.dropWhile isSpaceChar
  if t.head? = some '-' then (digitsVal t.tail).map (fun n => -(n : Int))
  else if t.head? = some '+' then (digitsVal t.tail).map (fun n => ((n : Nat) : Int))
  else (digitsVal t).map (fun n => ((n : Nat) : Int))

/-- JS parseInt on a string. -/
def parseIntStr (s : String) : Option Int := parseIntChars s.data

/-- parseInt(tokens[i]): indexing past the end of the token array gives
undefined, and parseInt(undefined) is NaN (none). -/
def parseIntTok (ts : List String) (i : Nat) : Option Int :=
  match ts[i]? with
  | some s => parseIntStr s
  | none => none

/-- JS ToLength as used by Array.from on a length property: NaN and
negative lengths give an empty array. -/
def toLength : Option Int → Nat
  | some i => i.toNat
  | none => 0

/-- ImageEditor.read after tokenization (file.split on whitespace runs):
tokens[0] is the skipped tag, tokens[1] the width, tokens[2] the height,
tokens[3] the skipped maximum channel value, and the pixel triples follow
in row-major order, cell (x, y) at token index 4 + 3*(y*width + x) (the
source consumes tokens with a running pre-incremented cursor; y is the
outer loop, x the inner, three tokens per cell).  There is no validation of
any kind: every token goes through parseInt and the result, NaN included,
is stored.  The loops run exactly toLength(width) by toLength(height)
times (a NaN or negative bound stops the loop immediately, matching the
empty arrays Array.from builds from such a length).  read never throws:
the claims about parse failures are settled against this totality. -/
def readTokens (ts : List String) : EditImage :=
  let w := toLength (parseIntTok ts 1)
  let h := toLength (parseIntTok ts 2)
  { width := w, height := h,
    data := fun x y =>
      if x < w ∧ y < h then
        { red := parseIntTok ts (4 + 3 * (y * w + x)),
          green := parseIntTok ts (4 + 3 * (y * w + x) + 1),
          blue := parseIntTok ts (4 + 3 * (y * w + x) + 2) }
      else Color.default }

/-- Decimal digits of a Nat, most significant first (the JS number to
string conversion for the integers this program prints). -/
def natToChars (n : Nat) : List Char :=
  if h : n < 10 then [Char.ofNat (48 + n)]
  else natToChars (n / 10) ++ [Char.ofNat (48 + n % 10)]
decreasing_by exact Nat.div_lt_self (by omega) (by omega)

/-- JS template-string conversion of a Nat. -/
def jsNatToString (n : Nat) : String := String.mk (natToChars n)

/-- JS template-string conversion of an integer JS number. -/
def jsIntToString (i : Int) : String :=
  if i < 0 then String.mk ('-' :: natToChars i.natAbs)
  else String.mk (natToChars i.toNat)

/-- JS template-string conversion of a channel value: NaN prints as the
three characters N a N. -/
def jsNumToString : Option Int → String
  | some i => jsIntToString i
  | none => "NaN"

/-- The pixel tokens that ImageEditor.write emits, in row-major order
(y outer, x inner), three tokens per cell; inside the file they are
separated by single spaces and rows end with a newline, so splitting the
written text on whitespace runs recovers exactly this list. -/
def pixelTokens (g : EditImage) : List String :=
  (List.range g.height).flatMap fun y =>
    (List.range g.width).flatMap fun x =>
      [jsNumToString (g.data x y).red, jsNumToString (g.data x y).green,
       jsNumToString (g.data x y).blue]

/-- The token list of the text ImageEditor.write produces: tag line, width
and height, the 255 line, the pixel tokens, and one final empty token
because the text ends with a newline and split on whitespace runs keeps
the empty piece after a trailing separator. -/
def serializeList (g : EditImage) : List String :=
  "P3" :: jsNatToString g.width :: jsNatToString g.height :: "255" ::
    (pixelTokens g ++ [""])

/-- ImageEditor.write as a token producer.  On a zero-width grid, write
throws before producing the dimension line: getHeight() reads
pixels[0].length and pixels[0] is undefined (none models that failure). -/
def serializeTokens (g : EditImage) : Option (List String) :=
  if g.width = 0 then none else some (serializeList g)

/-- Outcome of ImageEditor.run after a successful read: whether the usage
message was printed, and the image passed to write when the write call was
reached (none when run returned before writing). -/
structure RunResult where
  usagePrinted : Bool
  written : Option EditImage

/-- ImageEditor.run after read succeeded on the input file, dispatching on
args = [inFile, outFile, filterName, extra...].  Each recognised filter
checks its argument count and returns after printing usage on a mismatch;
motionblur additionally parses its length and returns on NaN or negative.
The final else branch prints usage but does NOT return, so the write call
is still reached with the unmodified image. -/
def run (args : List String) (image : EditImage) : RunResult :=
  if args.length < 3 then ⟨true, none⟩
  else
    let filter := (args[2]?).getD ""
    if filter = "grayscale" ∨ filter = "greyscale" then
      if args.length ≠ 3 then ⟨true, none⟩
      else ⟨false, some (grayscale image)⟩
    else if filter = "invert" then
      if args.length ≠ 3 then ⟨true, none⟩
      else ⟨false, some (invert image)⟩
    else if filter = "emboss" then
      if args.length ≠ 3 then ⟨true, none⟩
      else ⟨false, some (emboss image)⟩
    else if filter = "motionblur" then
      if args.length ≠ 4 then ⟨true, none⟩
      else
        match parseIntStr ((args[3]?).getD "") with
        | none => ⟨true, none⟩
        | some len => if len < 0 then ⟨true, none⟩
          else ⟨false, some (motionblur image len)⟩
    else ⟨true, some image⟩

/-- The 2 by 2 grid of the concrete spec scenario: row 0 is
(10,20,30),(40,50,60) and row 1 is (70,80,90),(100,110,120). -/
def ex2 : EditImage :=
  { width := 2, height := 2,
    data := fun x y =>
      if x = 0 ∧ y = 0 then ⟨some 10, some 20, some 30⟩
      else if x = 1 ∧ y = 0 then ⟨some 40, some 50, some 60⟩
      else if x = 0 ∧ y = 1 then ⟨some 70, some 80, some 90⟩
      else if x = 1 ∧ y = 1 then ⟨some 100, some 110, some 120⟩
      else Color.default }

/-- A 1 by 1 grid, for the bounds scenarios. -/
def g1 : EditImage :=
  { width := 1, height := 1, data := fun _ _ => ⟨some 1, some 2, some 3⟩ }

/-- The strict processing order of the ascending loops: p is visited
before q. -/
def ltAsc (p q : Nat × Nat) : Prop := p.1 < q.1 ∨ (p.1 = q.1 ∧ p.2 < q.2)

/-- The strict processing order of the descending emboss loops: p is
visited before q. -/
def ltDesc (p q : Nat × Nat) : Prop := q.1 < p.1 ∨ (p.1 = q.1 ∧ q.2 < p.2)

theorem foldl_applyStep_width (F : (Nat → Nat → Color) → Nat × Nat → Color) :
    ∀ (L : List (Nat × Nat)) (g : EditImage),
      (L.foldl (applyStep F) g).width = g.width := by
  intro L
  induction L with
  | nil => intro g; rfl
  | cons p T ih => intro g; exact ih (applyStep F g p)

theorem foldl_applyStep_height (F : (Nat → Nat → Color) → Nat × Nat → Color) :
    ∀ (L : List (Nat × Nat)) (g : EditImage),
      (L.foldl (applyStep F) g).height = g.height := by
  intro L
  induction L with
  | nil => intro g; rfl
  | cons p T ih => intro g; exact ih (applyStep F g p)

/-- Evaluation of an in-place filter loop.  If the loop visits its cells in
a strict order lt (the list is Pairwise lt) and the value written at a cell
only depends on grid content at points that are not visited earlier (the
stability hypothesis hF quantifies over data functions that agree outside
the already-visited region), then every visited cell ends up with the value
computed from the ORIGINAL grid, and unvisited cells are untouched. -/
theorem foldl_applyStep_data (F : (Nat → Nat → Color) → Nat × Nat → Color)
    (lt : Nat × Nat → Nat × Nat → Prop)
    (hF : ∀ (d d' : Nat → Nat → Color) (p : Nat × Nat),
      (∀ q : Nat × Nat, ¬ lt q p → d q.1 q.2 = d' q.1 q.2) → F d p = F d' p) :
    ∀ (L : List (Nat × Nat)) (g : EditImage), L.Pairwise lt →
      ∀ a b : Nat, (L.foldl (applyStep F) g).data a b
        = if (a, b) ∈ L then F g.data (a, b) else g.data a b := by
  intro L
  induction L with
  | nil => intro g _ a b; simp
  | cons p T ih =>
    intro g hp a b
    rcases List.pairwise_cons.mp hp with ⟨hpT, hT⟩
    have hstep : List.foldl (applyStep F) g (p :: T)
        = List.foldl (applyStep F) (applyStep F g p) T := rfl
    rw [hstep, ih (applyStep F g p) hT a b]
    by_cases hmem : (a, b) ∈ T
    · have hlt := hpT (a, b) hmem
      have hFe : F (applyStep F g p).data (a, b) = F g.data (a, b) := by
        apply hF
        intro q hq
        show (if q.1 = p.1 ∧ q.2 = p.2 then F g.data p else g.data q.1 q.2)
          = g.data q.1 q.2
        by_cases hqp : q.1 = p.1 ∧ q.2 = p.2
        · exfalso
          apply hq
          have hq2 : q = p := Prod.ext hqp.1 hqp.2
          rw [hq2]
          exact hlt
        · simp [hqp]
      simp only [if_pos hmem, if_pos (List.mem_cons_of_mem p hmem), hFe]
    · rw [if_neg hmem]
      by_cases hap : (a, b) = p
      · rw [if_pos (by rw [hap]; exact List.mem_cons_self p T)]
        show (if a = p.1 ∧ b = p.2 then F g.data p else g.data a b) = F g.data (a, b)
        have h1 : a = p.1 := by rw [← hap]
        have h2 : b = p.2 := by rw [← hap]
        rw [if_pos ⟨h1, h2⟩, hap]
      · rw [if_neg (by
          intro hin
          rcases List.mem_cons.mp hin with h | h
          · exact hap h
          · exact hmem h)]
        show (if a = p.1 ∧ b = p.2 then F g.data p else g.data a b) = g.data a b
        rw [if_neg (by
          intro hand
          exact hap (Prod.ext hand.1 hand.2))]

/-- The column-major product of two strictly ordered index lists is
strictly ordered lexicographically. -/
theorem pairwise_flatMap_prod (r : Nat → Nat → Prop) :
    ∀ (l : List Nat), l.Pairwise r → ∀ (m : List Nat), m.Pairwise r →
      (l.flatMap fun x => m.map fun y => (x, y)).Pairwise
        (fun p q => r p.1 q.1 ∨ (p.1 = q.1 ∧ r p.2 q.2)) := by
  intro l
  induction l with
  | nil => intro _ m _; simp
  | cons x xs ih =>
    intro hl m hm
    rcases List.pairwise_cons.mp hl with ⟨hx, hxs⟩
    rw [List.flatMap_cons, List.pairwise_append]
    refine ⟨?_, ih hxs m hm, ?_⟩
    · rw [List.pairwise_map]
      exact hm.imp (fun h => Or.inr ⟨rfl, h⟩)
    · intro p hp q hq
      rcases List.mem_map.mp hp with ⟨y, _, hy⟩
      rcases List.mem_flatMap.mp hq with ⟨x', hx', hq'⟩
      rcases List.mem_map.mp hq' with ⟨y', _, hy'⟩
      left
      rw [← hy, ← hy']
      exact hx x' hx'

theorem pairwise_colMajor (w h : Nat) : (colMajor w h).Pairwise ltAsc :=
  pairwise_flatMap_prod (· < ·) (List.range w) (List.pairwise_lt_range w)
    (List.range h) (List.pairwise_lt_range h)

theorem pairwise_colMajorRev (w h : Nat) : (colMajorRev w h).Pairwise ltDesc :=
  pairwise_flatMap_prod (fun a b => b < a) ((List.range w).reverse)
    (List.pairwise_reverse.mpr (List.pairwise_lt_range w))
    ((List.range h).reverse)
    (List.pairwise_reverse.mpr (List.pairwise_lt_range h))

theorem mem_colMajor (w h a b : Nat) : (a, b) ∈ colMajor w h ↔ a < w ∧ b < h := by
  constructor
  · intro hin
    rcases List.mem_flatMap.mp hin with ⟨x, hx, h2⟩
    rcases List.mem_map.mp h2 with ⟨y, hy, hxy⟩
    have h1 : x = a := congrArg Prod.fst hxy
    have h2 : y = b := congrArg Prod.snd hxy
    rw [← h1, ← h2]
    exact ⟨List.mem_range.mp hx, List.mem_range.mp hy⟩
  · intro hab
    exact List.mem_flatMap.mpr ⟨a, List.mem_range.mpr hab.1,
      List.mem_map.mpr ⟨b, List.mem_range.mpr hab.2, rfl⟩⟩

theorem mem_colMajorRev (w h a b : Nat) :
    (a, b) ∈ colMajorRev w h ↔ a < w ∧ b < h := by
  constructor
  · intro hin
    rcases List.mem_flatMap.mp hin with ⟨x, hx, h2⟩
    rcases List.mem_map.mp h2 with ⟨y, hy, hxy⟩
    have h1 : x = a := congrArg Prod.fst hxy
    have h2 : y = b := congrArg Prod.snd hxy
    rw [← h1, ← h2]
    exact ⟨List.mem_range.mp (List.mem_reverse.mp hx),
      List.mem_range.mp (List.mem_reverse.mp hy)⟩
  · intro hab
    exact List.mem_flatMap.mpr ⟨a, List.mem_reverse.mpr (List.mem_range.mpr hab.1),
      List.mem_map.mpr ⟨b, List.mem_reverse.mpr (List.mem_range.mpr hab.2), rfl⟩⟩

theorem grayscaleF_stable :
    ∀ (d d' : Nat → Nat → Color) (p : Nat × Nat),
      (∀ q : Nat × Nat, ¬ ltAsc q p → d q.1 q.2 = d' q.1 q.2) →
      grayscaleF d p = grayscaleF d' p := by
  intro d d' p h
  have he : d p.1 p.2 = d' p.1 p.2 := h p (by simp [ltAsc])
  simp [grayscaleF, he]

theorem invertF_stable :
    ∀ (d d' : Nat → Nat → Color) (p : Nat × Nat),
      (∀ q : Nat × Nat, ¬ ltAsc q p → d q.1 q.2 = d' q.1 q.2) →
      invertF d p = invertF d' p := by
  intro d d' p h
  have he : d p.1 p.2 = d' p.1 p.2 := h p (by simp [ltAsc])
  simp [invertF, he]

theorem embossF_stable :
    ∀ (d d' : Nat → Nat → Color) (p : Nat × Nat),
      (∀ q : Nat × Nat, ¬ ltDesc q p → d q.1 q.2 = d' q.1 q.2) →
      embossF d p = embossF d' p := by
  intro d d' p h
  have e1 : d p.1 p.2 = d' p.1 p.2 := h p (by simp [ltDesc])
  have e2 : d (p.1 - 1) (p.2 - 1) = d' (p.1 - 1) (p.2 - 1) :=
    h (p.1 - 1, p.2 - 1) (by simp only [ltDesc]; omega)
  simp [embossF, e1, e2]

theorem foldl_jadd_congr (sel : Color → Option Int) (y : Nat)
    (d d' : Nat → Nat → Color) :
    ∀ (l : List Nat) (acc : Option Int), (∀ i ∈ l, d i y = d' i y) →
      l.foldl (fun acc i => jadd acc (sel (d i y))) acc
        = l.foldl (fun acc i => jadd acc (sel (d' i y))) acc := by
  intro l
  induction l with
  | nil => intro acc _; rfl
  | cons i t ih =>
    intro acc h
    simp only [List.foldl_cons]
    rw [h i (List.mem_cons_self i t)]
    exact ih _ (fun j hj => h j (List.mem_cons_of_mem i hj))

theorem motionblurF_stable (w len : Nat) :
    ∀ (d d' : Nat → Nat → Color) (p : Nat × Nat),
      (∀ q : Nat × Nat, ¬ ltAsc q p → d q.1 q.2 = d' q.1 q.2) →
      motionblurF w len d p = motionblurF w len d' p := by
  intro d d' p h
  have hcell : d p.1 p.2 = d' p.1 p.2 := h p (by simp [ltAsc])
  have hread : ∀ i ∈ List.range' (p.1 + 1) (min (w - 1) (p.1 + len - 1) - p.1),
      d i p.2 = d' i p.2 := by
    intro i hi
    rcases List.mem_range'.mp hi with ⟨j, _, hij⟩
    exact h (i, p.2) (by simp only [ltAsc]; omega)
  have hch : ∀ sel : Color → Option Int,
      mbChan d sel p.1 p.2 (min (w - 1) (p.1 + len - 1))
        = mbChan d' sel p.1 p.2 (min (w - 1) (p.1 + len - 1)) := by
    intro sel
    unfold mbChan
    rw [hcell]
    exact foldl_jadd_congr sel p.2 d d' _ _ hread
  simp only [motionblurF, hch]

theorem grayscale_data (g : EditImage) (a b : Nat) :
    (grayscale g).data a b =
      if a < g.width ∧ b < g.height then grayscaleF g.data (a, b)
      else g.data a b := by
  have h := foldl_applyStep_data grayscaleF ltAsc grayscaleF_stable
    (colMajor g.width g.height) g (pairwise_colMajor _ _) a b
  rw [grayscale, h]
  simp only [mem_colMajor]

theorem invert_data (g : EditImage) (a b : Nat) :
    (invert g).data a b =
      if a < g.width ∧ b < g.height then invertF g.data (a, b)
      else g.data a b := by
  have h := foldl_applyStep_data invertF ltAsc invertF_stable
    (colMajor g.width g.height) g (pairwise_colMajor _ _) a b
  rw [invert, h]
  simp only [mem_colMajor]

theorem emboss_data (g : EditImage) (a b : Nat) :
    (emboss g).data a b =
      if a < g.width ∧ b < g.height then embossF g.data (a, b)
      else g.data a b := by
  have h := foldl_applyStep_data embossF ltDesc embossF_stable
    (colMajorRev g.width g.height) g (pairwise_colMajorRev _ _) a b
  rw [emboss, h]
  simp only [mem_colMajorRev]

theorem motionblur_data (g : EditImage) (len : Int) (hlen : ¬ len < 1) (a b : Nat) :
    (motionblur g len).data a b =
      if a < g.width ∧ b < g.height then motionblurF g.width len.toNat g.data (a, b)
      else g.data a b := by
  rw [motionblur, if_neg hlen]
  have h := foldl_applyStep_data (motionblurF g.width len.toNat) ltAsc
    (motionblurF_stable g.width len.toNat)
    (colMajor g.width g.height) g (pairwise_colMajor _ _) a b
  rw [h]
  simp only [mem_colMajor]

theorem grayscale_width (g : EditImage) : (grayscale g).width = g.width :=
  foldl_applyStep_width _ _ _

theorem grayscale_height (g : EditImage) : (grayscale g).height = g.height :=
  foldl_applyStep_height _ _ _

theorem invert_width (g : EditImage) : (invert g).width = g.width :=
  foldl_applyStep_width _ _ _

theorem invert_height (g : EditImage) : (invert g).height = g.height :=
  foldl_applyStep_height _ _ _

theorem emboss_width (g : EditImage) : (emboss g).width = g.width :=
  foldl_applyStep_width _ _ _

theorem emboss_height (g : EditImage) : (emboss g).height = g.height :=
  foldl_applyStep_height _ _ _

theorem motionblur_width (g : EditImage) (len : Int) :
    (motionblur g len).width = g.width := by
  rw [motionblur]
  by_cases h : len < 1
  · rw [if_pos h]
  · rw [if_neg h]
    exact foldl_applyStep_width _ _ _

theorem motionblur_height (g : EditImage) (len : Int) :
    (motionblur g len).height = g.height := by
  rw [motionblur]
  by_cases h : len < 1
  · rw [if_pos h]
  · rw [if_neg h]
    exact foldl_applyStep_height _ _ _

theorem EditImage.eq_of_parts : ∀ {g g' : EditImage}, g.width = g'.width →
    g.height = g'.height → (∀ a b : Nat, g.data a b = g'.data a b) → g = g' := by
  intro g g' hw hh hd
  cases g with
  | mk w h d =>
    cases g' with
    | mk w' h' d' =>
      simp only [EditImage.mk.injEq]
      exact ⟨hw, hh, funext fun a => funext fun b => hd a b⟩

theorem jadd_zero (v : Option Int) : jadd (some 0) v = v := by
  cases v with
  | none => rfl
  | some n => show some (0 + n) = some n; rw [Int.zero_add]

theorem jfdiv_one (v : Option Int) : jfdiv v 1 = v := by
  cases v with
  | none => rfl
  | some n =>
    show some (Int.fdiv n 1) = some n
    rw [Int.fdiv_eq_ediv n (by omega), Int.ediv_one]

theorem jsub255_jsub255 (v : Option Int) :
    jsub (some 255) (jsub (some 255) v) = v := by
  cases v with
  | none => rfl
  | some n =>
    show some (255 - (255 - n)) = some n
    congr 1
    omega

/-- The accumulation loop of motionblur computes the plain sum over the
inclusive run x .. maxX of the row. -/
theorem mbChan_eq_jsum (d : Nat → Nat → Color) (sel : Color → Option Int)
    (x y maxX : Nat) :
    mbChan d sel x y maxX
      = jsum ((List.range' x (maxX - x + 1)).map (fun i => sel (d i y))) := by
  unfold mbChan jsum
  rw [List.range'_succ]
  simp only [List.map_cons, List.foldl_cons, List.foldl_map]
  rw [jadd_zero]

/-- C6: grayscale sets every cell of every grid to
floor((red+green+blue)/3) of that cell's original values, clamped to
[0,255], in all three channels; on the 2 by 2 example grid cell (0,0)
becomes (20,20,20) and cell (1,1) becomes (110,110,110). -/
theorem grayscale_c6 :
    (∀ (g : EditImage) (a b : Nat), a < g.width → b < g.height →
      (grayscale g).data a b =
        { red := jclamp (jfdiv (jadd (jadd (g.data a b).red (g.data a b).green)
            (g.data a b).blue) 3),
          green := jclamp (jfdiv (jadd (jadd (g.data a b).red (g.data a b).green)
            (g.data a b).blue) 3),
          blue := jclamp (jfdiv (jadd (jadd (g.data a b).red (g.data a b).green)
            (g.data a b).blue) 3) }) ∧
    (grayscale ex2).data 0 0 = ⟨some 20, some 20, some 20⟩ ∧
    (grayscale ex2).data 1 1 = ⟨some 110, some 110, some 110⟩ := by
  refine ⟨?_, by decide, by decide⟩
  intro g a b ha hb
  rw [grayscale_data, if_pos ⟨ha, hb⟩]
  rfl

theorem grayscale_c6_witness :
    (0 < ex2.width ∧ 0 < ex2.height) ∧
    (grayscale ex2).data 0 0 =
      { red := jclamp (jfdiv (jadd (jadd (ex2.data 0 0).red (ex2.data 0 0).green)
          (ex2.data 0 0).blue) 3),
        green := jclamp (jfdiv (jadd (jadd (ex2.data 0 0).red (ex2.data 0 0).green)
          (ex2.data 0 0).blue) 3),
        blue := jclamp (jfdiv (jadd (jadd (ex2.data 0 0).red (ex2.data 0 0).green)
          (ex2.data 0 0).blue) 3) } :=
  ⟨⟨by decide, by decide⟩, grayscale_c6.1 ex2 0 0 (by decide) (by decide)⟩

/-- C8: invert is self-inverse: applying it twice reproduces the original
grid exactly. -/
theorem invert_c8 (g : EditImage) : invert (invert g) = g := by
  apply EditImage.eq_of_parts
  · rw [invert_width, invert_width]
  · rw [invert_height, invert_height]
  · intro a b
    rw [invert_data, invert_width, invert_height]
    by_cases hab : a < g.width ∧ b < g.height
    · rw [if_pos hab]
      show invertF (invert g).data (a, b) = g.data a b
      unfold invertF
      simp only
      rw [invert_data, if_pos hab]
      show Color.mk (jsub (some 255) (invertF g.data (a, b)).red)
        (jsub (some 255) (invertF g.data (a, b)).green)
        (jsub (some 255) (invertF g.data (a, b)).blue) = g.data a b
      unfold invertF
      simp only
      rw [jsub255_jsub255, jsub255_jsub255, jsub255_jsub255]
    · rw [if_neg hab, invert_data, if_neg hab]

theorem invert_c8_witness : invert (invert ex2) = ex2 := invert_c8 ex2

/-- C9: motionblur with length 0 and with length 1 both leave the grid
unchanged. -/
theorem motionblur_c9 (g : EditImage) : motionblur g 0 = g ∧ motionblur g 1 = g := by
  constructor
  · rw [motionblur, if_pos (by omega)]
  · apply EditImage.eq_of_parts (motionblur_width g 1) (motionblur_height g 1)
    intro a b
    rw [motionblur_data g 1 (by omega) a b]
    by_cases hab : a < g.width ∧ b < g.height
    · rw [if_pos hab]
      have htn : (1 : Int).toNat = 1 := rfl
      have hmax : min (g.width - 1) (a + (1 : Int).toNat - 1) = a := by
        rw [htn]
        have := hab.1
        omega
      show motionblurF g.width (1 : Int).toNat g.data (a, b) = g.data a b
      unfold motionblurF
      simp only [hmax, Nat.sub_self, Nat.zero_add, Nat.cast_one]
      unfold mbChan
      simp only [Nat.sub_self, List.range'_zero, List.foldl_nil]
      rw [jfdiv_one, jfdiv_one, jfdiv_one]
    · rw [if_neg hab]

theorem motionblur_c9_witness : motionblur g1 0 = g1 ∧ motionblur g1 1 = g1 :=
  motionblur_c9 g1

/-- C4: after emboss, every interior cell (x positive and y positive) of
every grid holds, in all three channels, clamp(128 + diff) where diff is
selected from the per-channel differences against the up-left neighbour of
the ORIGINAL grid (largest absolute value wins, ties keep the earlier
channel in red, green, blue order, comparison strict); every boundary cell
holds 128 in all three channels.  On the 2 by 2 example grid cell (0,0)
becomes 128 and cell (1,1) becomes 218. -/
theorem emboss_c4 :
    (∀ (g : EditImage) (a b : Nat), a < g.width → b < g.height →
      (emboss g).data a b =
        if a = 0 ∨ b = 0 then Color.gray 128
        else Color.gray (clamp255 (128 + embossDiff (g.data a b)
          (g.data (a - 1) (b - 1))))) ∧
    (emboss ex2).data 0 0 = Color.gray 128 ∧
    (emboss ex2).data 1 1 = Color.gray 218 := by
  refine ⟨?_, by decide, by decide⟩
  intro g a b ha hb
  rw [emboss_data, if_pos ⟨ha, hb⟩]
  unfold embossF
  by_cases h0 : 0 < a ∧ 0 < b
  · rw [if_pos ?side, if_neg (by omega)]
    case side => exact h0
  · rw [if_neg h0, if_pos (by omega)]
    show Color.gray (clamp255 (128 + 0)) = Color.gray 128
    rfl

theorem emboss_c4_witness :
    (1 < ex2.width ∧ 1 < ex2.height) ∧
    (emboss ex2).data 1 1 =
      (if 1 = 0 ∨ 1 = 0 then Color.gray 128
       else Color.gray (clamp255 (128 + embossDiff (ex2.data 1 1)
         (ex2.data (1 - 1) (1 - 1))))) :=
  ⟨⟨by decide, by decide⟩, emboss_c4.1 ex2 1 1 (by decide) (by decide)⟩

/-- C5: for every grid and every integer length at least 1, motionblur
sets each cell (x, y) to, per channel, the floor of the sum of the ORIGINAL
values of the cells (x, y) through (min(x+length-1, width-1), y), divided
by the number of cells actually in that inclusive run (the run shrinks
near the right edge). -/
theorem motionblur_c5 :
    ∀ (g : EditImage) (len : Int), 1 ≤ len → ∀ (a b : Nat),
      a < g.width → b < g.height →
      (motionblur g len).data a b =
        { red := jfdiv (jsum ((List.range' a (min (g.width - 1) (a + len.toNat - 1) - a
              + 1)).map (fun i => (g.data i b).red)))
            ((min (g.width - 1) (a + len.toNat - 1) - a + 1 : Nat)),
          green := jfdiv (jsum ((List.range' a (min (g.width - 1) (a + len.toNat - 1) - a
              + 1)).map (fun i => (g.data i b).green)))
            ((min (g.width - 1) (a + len.toNat - 1) - a + 1 : Nat)),
          blue := jfdiv (jsum ((List.range' a (min (g.width - 1) (a + len.toNat - 1) - a
              + 1)).map (fun i => (g.data i b).blue)))
            ((min (g.width - 1) (a + len.toNat - 1) - a + 1 : Nat)) } := by
  intro g len hlen a b ha hb
  rw [motionblur_data g len (by omega) a b, if_pos ⟨ha, hb⟩]
  unfold motionblurF
  simp only [mbChan_eq_jsum]

theorem motionblur_c5_witness :
    ((1 : Int) ≤ 2 ∧ 0 < ex2.width ∧ 0 < ex2.height) ∧
    (motionblur ex2 2).data 0 0 =
      { red := jfdiv (jsum ((List.range' 0 (min (ex2.width - 1) (0 + (2 : Int).toNat - 1)
            - 0 + 1)).map (fun i => (ex2.data i 0).red)))
          ((min (ex2.width - 1) (0 + (2 : Int).toNat - 1) - 0 + 1 : Nat)),
        green := jfdiv (jsum ((List.range' 0 (min (ex2.width - 1) (0 + (2 : Int).toNat - 1)
            - 0 + 1)).map (fun i => (ex2.data i 0).green)))
          ((min (ex2.width - 1) (0 + (2 : Int).toNat - 1) - 0 + 1 : Nat)),
        blue := jfdiv (jsum ((List.range' 0 (min (ex2.width - 1) (0 + (2 : Int).toNat - 1)
            - 0 + 1)).map (fun i => (ex2.data i 0).blue)))
          ((min (ex2.width - 1) (0 + (2 : Int).toNat - 1) - 0 + 1 : Nat)) } :=
  ⟨⟨by decide, by decide, by decide⟩,
    motionblur_c5 ex2 2 (by decide) 0 0 (by decide) (by decide)⟩

/-- C1 (code observation): with an unrecognised filter name, run prints the
usage message but the final else branch does not return, so the write call
is still reached and receives the unmodified image.  The wrong-arity and
bad-length paths of the recognised filters do return before writing. -/
theorem run_c1_bug :
    (run ["in.ppm", "out.ppm", "sepia"] ex2).usagePrinted = true ∧
    (run ["in.ppm", "out.ppm", "sepia"] ex2).written = some ex2 ∧
    (run ["in.ppm", "out.ppm", "grayscale", "extra"] ex2).written = none ∧
    (run ["in.ppm", "out.ppm", "motionblur"] ex2).written = none ∧
    (run ["in.ppm", "out.ppm", "motionblur", "-2"] ex2).written = none ∧
    (run ["in.ppm", "out.ppm", "motionblur", "soft"] ex2).written = none :=
  ⟨rfl, rfl, rfl, rfl, rfl, rfl⟩

/-- The malformed input of the C2 scenario: declared width 3 and height 2
but only 5 pixel triples. -/
def c2Tokens : List String :=
  ["P3", "3", "2", "255", "1", "2", "3", "4", "5", "6", "7", "8",
   "9", "10", "11", "12", "13", "14", "15"]

/-- C2 (code observation): read performs no validation whatsoever; on the
width 3, height 2 file with only 5 pixel triples it returns a full 3 by 2
grid whose sixth cell holds NaN in all three channels (parseInt of the
missing tokens), instead of raising any parse error.  readTokens is a
total function: no input makes read throw. -/
theorem read_c2_bug :
    (readTokens c2Tokens).width = 3 ∧ (readTokens c2Tokens).height = 2 ∧
    (readTokens c2Tokens).data 1 1 = ⟨some 13, some 14, some 15⟩ ∧
    (readTokens c2Tokens).data 2 1 = ⟨none, none, none⟩ := by
  refine ⟨rfl, rfl, by decide, by decide⟩

/-- C3 (code observation): on a 1 by 1 grid, get(0,1) returns undefined
with no error and set(0,1,c) succeeds silently; only an out-of-range x
actually throws (pixels[x] is undefined).  This contradicts the claim that
every out-of-range get or set fails fast. -/
theorem bounds_c3_bug :
    EditImage.getJS g1 0 1 = Except.ok none ∧
    EditImage.setJS g1 0 1 ⟨some 9, some 9, some 9⟩ = Except.ok g1 ∧
    EditImage.getJS g1 1 0 = Except.error () ∧
    EditImage.setJS g1 1 0 ⟨some 9, some 9, some 9⟩ = Except.error () ∧
    EditImage.getJS g1 0 0 = Except.ok (some ⟨some 1, some 2, some 3⟩) :=
  ⟨rfl, rfl, rfl, rfl, rfl⟩

/-- C10: whenever the second and third tokens parse as positive integers w
and h and at least 4 + 3wh tokens are present, read succeeds regardless of
the tag and maxval tokens and stores every parsed channel value verbatim,
with no validation or clamping: cell (x, y) holds exactly the parseInt
results of the three tokens at index 4 + 3(yw + x). -/
theorem read_c10 (ts : List String) (w h : Nat)
    (hw : parseIntTok ts 1 = some (w : Int)) (hw0 : 0 < w)
    (hh : parseIntTok ts 2 = some (h : Int)) (hh0 : 0 < h)
    (hlen : 4 + 3 * (w * h) ≤ ts.length) :
    (readTokens ts).width = w ∧ (readTokens ts).height = h ∧
    ∀ a b : Nat, a < w → b < h →
      (readTokens ts).data a b =
        { red := parseIntTok ts (4 + 3 * (b * w + a)),
          green := parseIntTok ts (4 + 3 * (b * w + a) + 1),
          blue := parseIntTok ts (4 + 3 * (b * w + a) + 2) } := by
  have hww : toLength (parseIntTok ts 1) = w := by
    rw [hw]
    exact Int.toNat_natCast w
  have hhh : toLength (parseIntTok ts 2) = h := by
    rw [hh]
    exact Int.toNat_natCast h
  refine ⟨hww, hhh, ?_⟩
  intro a b ha hb
  show (if a < toLength (parseIntTok ts 1) ∧ b < toLength (parseIntTok ts 2) then
      ({ red := parseIntTok ts (4 + 3 * (b * toLength (parseIntTok ts 1) + a)),
         green := parseIntTok ts (4 + 3 * (b * toLength (parseIntTok ts 1) + a) + 1),
         blue := parseIntTok ts (4 + 3 * (b * toLength (parseIntTok ts 1) + a) + 2) }
        : Color)
    else Color.default) = _
  rw [hww, hhh, if_pos ⟨ha, hb⟩]

/-- A well-formed input for the C10 witness whose tag and maxval tokens are
junk and whose channel values lie outside [0,255]. -/
def c10Tokens : List String :=
  ["XX", "2", "1", "banana", "300", "-7", "12", "999", "0", "64"]

theorem read_c10_witness :
    (parseIntTok c10Tokens 1 = some ((2 : Nat) : Int) ∧ 0 < 2 ∧
      parseIntTok c10Tokens 2 = some ((1 : Nat) : Int) ∧ 0 < 1 ∧
      4 + 3 * (2 * 1) ≤ c10Tokens.length) ∧
    ((readTokens c10Tokens).width = 2 ∧ (readTokens c10Tokens).height = 1 ∧
      ∀ a b : Nat, a < 2 → b < 1 →
        (readTokens c10Tokens).data a b =
          { red := parseIntTok c10Tokens (4 + 3 * (b * 2 + a)),
            green := parseIntTok c10Tokens (4 + 3 * (b * 2 + a) + 1),
            blue := parseIntTok c10Tokens (4 + 3 * (b * 2 + a) + 2) }) :=
  ⟨⟨by decide, by decide, by decide, by decide, by decide⟩,
    read_c10 c10Tokens 2 1 (by decide) (by decide) (by decide) (by decide)
      (by decide)⟩

theorem charOfNat_digit_isDigit (d : Nat) (hd : d < 10) :
    (Char.ofNat (48 + d)).isDigit = true := by
  interval_cases d <;> decide

theorem charOfNat_digit_toNat (d : Nat) (hd : d < 10) :
    (Char.ofNat (48 + d)).toNat = 48 + d := by
  interval_cases d <;> decide

theorem natToChars_all_digits :
    ∀ n : Nat, ∀ c ∈ natToChars n, c.isDigit = true := by
  intro n
  induction n using Nat.strong_induction_on with
  | _ n ih =>
    intro c hc
    rw [natToChars] at hc
    by_cases h : n < 10
    · rw [dif_pos h] at hc
      rcases List.mem_singleton.mp hc with rfl
      exact charOfNat_digit_isDigit n h
    · rw [dif_neg h] at hc
      rcases List.mem_append.mp hc with h2 | h2
      · exact ih (n / 10) (Nat.div_lt_self (by omega) (by omega)) c h2
      · rcases List.mem_singleton.mp h2 with rfl
        exact charOfNat_digit_isDigit (n % 10) (Nat.mod_lt n (by omega))

theorem natToChars_ne_nil (n : Nat) : natToChars n ≠ [] := by
  rw [natToChars]
  by_cases h : n < 10
  · rw [dif_pos h]
    simp
  · rw [dif_neg h]
    simp

theorem natToChars_foldl :
    ∀ n a : Nat, (natToChars n).foldl (fun a c => a * 10 + (c.toNat - 48)) a
      = a * 10 ^ (natToChars n).length + n := by
  intro n
  induction n using Nat.strong_induction_on with
  | _ n ih =>
    intro a
    by_cases h : n < 10
    · rw [natToChars, dif_pos h]
      simp only [List.foldl_cons, List.foldl_nil, List.length_cons,
        List.length_nil, Nat.zero_add, pow_one]
      rw [charOfNat_digit_toNat n h]
      omega
    · rw [natToChars, dif_neg h]
      rw [List.foldl_append, List.length_append]
      simp only [List.foldl_cons, List.foldl_nil, List.length_cons,
        List.length_nil, Nat.zero_add]
      rw [ih (n / 10) (Nat.div_lt_self (by omega) (by omega)) a]
      rw [charOfNat_digit_toNat (n % 10) (Nat.mod_lt n (by omega))]
      rw [pow_succ, ← Nat.mul_assoc]
      have hmod : (n / 10) * 10 + (48 + n % 10 - 48) = n := by omega
      rw [Nat.add_mul, Nat.add_assoc, hmod]

theorem takeWhile_eq_self_of_all {p : Char → Bool} :
    ∀ l : List Char, (∀ c ∈ l, p c = true) → l.takeWhile p = l := by
  intro l
  induction l with
  | nil => intro _; rfl
  | cons c t ih =>
    intro h
    rw [List.takeWhile_cons, if_pos (h c (List.mem_cons_self c t)),
      ih (fun x hx => h x (List.mem_cons_of_mem c hx))]

theorem digitsVal_natToChars (n : Nat) : digitsVal (natToChars n) = some n := by
  unfold digitsVal
  rw [takeWhile_eq_self_of_all _ (natToChars_all_digits n)]
  rw [if_neg (by simp [List.isEmpty_iff, natToChars_ne_nil n])]
  rw [natToChars_foldl n 0]
  simp

theorem isDigit_not_space {c : Char} (h : c.isDigit = true) :
    isSpaceChar c = false := by
  by_contra hne
  simp only [Bool.not_eq_false] at hne
  have hmem : ((c = ' ' ∨ c = '\n') ∨ c = '\t') ∨ c = '\r' := by
    simpa [isSpaceChar, Bool.or_eq_true, beq_iff_eq] using hne
  rcases hmem with ((h1 | h1) | h1) | h1 <;> (subst h1; exact absurd h (by decide))

theorem isDigit_ne_minus {c : Char} (h : c.isDigit = true) : ¬ c = '-' :=
  fun he => by subst he; exact absurd h (by decide)

theorem isDigit_ne_plus {c : Char} (h : c.isDigit = true) : ¬ c = '+' :=
  fun he => by subst he; exact absurd h (by decide)

theorem parseIntChars_digits (cs : List Char) (hne : cs ≠ [])
    (hd : ∀ c ∈ cs, c.isDigit = true) :
    parseIntChars cs = (digitsVal cs).map (fun n => ((n : Nat) : Int)) := by
  cases cs with
  | nil => exact absurd rfl hne
  | cons c rest =>
    have hc : c.isDigit = true := hd c (List.mem_cons_self c rest)
    have hdrop : (c :: rest).dropWhile isSpaceChar = c :: rest := by
      rw [List.dropWhile_cons, if_neg (by rw [isDigit_not_space hc]; simp)]
    unfold parseIntChars
    simp only [hdrop, List.head?_cons]
    rw [if_neg (by
        simp only [Option.some.injEq]
        exact isDigit_ne_minus hc),
      if_neg (by
        simp only [Option.some.injEq]
        exact isDigit_ne_plus hc)]

theorem parseIntStr_jsNatToString (n : Nat) :
    parseIntStr (jsNatToString n) = some ((n : Nat) : Int) := by
  unfold parseIntStr jsNatToString
  rw [show (String.mk (natToChars n)).data = natToChars n from rfl]
  rw [parseIntChars_digits _ (natToChars_ne_nil n) (natToChars_all_digits n)]
  rw [digitsVal_natToChars]
  rfl

theorem parseIntStr_jsIntToString (i : Int) :
    parseIntStr (jsIntToString i) = some i := by
  unfold jsIntToString
  by_cases h : i < 0
  · rw [if_pos h]
    unfold parseIntStr
    rw [show (String.mk ('-' :: natToChars i.natAbs)).data
      = '-' :: natToChars i.natAbs from rfl]
    unfold parseIntChars
    rw [show ('-' :: natToChars i.natAbs).dropWhile isSpaceChar
      = '-' :: natToChars i.natAbs from by
        rw [List.dropWhile_cons, if_neg (by decide)]]
    have habs : ((i.natAbs : Nat) : Int) = -i :=
      Int.ofNat_natAbs_of_nonpos (le_of_lt h)
    simp only [List.head?_cons, List.tail_cons, if_true, digitsVal_natToChars]
    simp [habs]
  · rw [if_neg h]
    have hx := parseIntStr_jsNatToString i.toNat
    unfold jsNatToString at hx
    rw [hx]
    congr 1
    exact Int.toNat_of_nonneg (not_lt.mp h)

theorem parseIntStr_jsNumToString (v : Option Int) :
    parseIntStr (jsNumToString v) = v := by
  cases v with
  | none => rfl
  | some i => exact parseIntStr_jsIntToString i

theorem length_flatMap_const {α β : Type} :
    ∀ (l : List α) (f : α → List β) (m : Nat),
      (∀ x ∈ l, (f x).length = m) → (l.flatMap f).length = l.length * m := by
  intro l
  induction l with
  | nil => intro f m _; simp
  | cons a t ih =>
    intro f m h
    rw [List.flatMap_cons, List.length_append, h a (List.mem_cons_self a t),
      ih f m (fun x hx => h x (List.mem_cons_of_mem a hx)), List.length_cons]
    ring

/-- Indexing into a concatenation of blocks of uniform length m: the
element at q * m + r is element r of block q. -/
theorem getElem?_flatMap_const {β : Type} (f : Nat → List β) (m : Nat)
    (hm : ∀ i : Nat, (f i).length = m) :
    ∀ (n s q r : Nat), q < n → r < m →
      ((List.range' s n).flatMap f)[q * m + r]? = (f (s + q))[r]? := by
  intro n
  induction n with
  | zero => intro s q r hq _; exact absurd hq (Nat.not_lt_zero q)
  | succ n ih =>
    intro s q r hq hr
    rw [List.range'_succ, List.flatMap_cons]
    cases q with
    | zero =>
      rw [Nat.zero_mul, Nat.zero_add]
      rw [List.getElem?_append, if_pos (by rw [hm s]; exact hr)]
      rw [Nat.add_zero]
    | succ q' =>
      have h1 : (q' + 1) * m + r = (f s).length + (q' * m + r) := by
        rw [hm s, Nat.succ_mul]
        ring
      rw [h1, List.getElem?_append_right (Nat.le_add_right _ _),
        Nat.add_sub_cancel_left]
      rw [ih (s + 1) q' r (Nat.lt_of_succ_lt_succ hq) hr,
        show s + 1 + q' = s + (q' + 1) from by omega]

/-- The token of channel c of cell (a, b) sits at offset 3(b*width + a) + c
of the pixel token block. -/
theorem pixelTokens_getElem (g : EditImage) (a b : Nat) (ha : a < g.width)
    (hb : b < g.height) (c : Nat) (hc : c < 3) :
    (pixelTokens g)[3 * (b * g.width + a) + c]?
      = [jsNumToString (g.data a b).red, jsNumToString (g.data a b).green,
         jsNumToString (g.data a b).blue][c]? := by
  have hrowlen : ∀ y : Nat, ((List.range g.width).flatMap fun x =>
      [jsNumToString (g.data x y).red, jsNumToString (g.data x y).green,
       jsNumToString (g.data x y).blue]).length = g.width * 3 := by
    intro y
    simpa using length_flatMap_const (List.range g.width)
      (fun x => [jsNumToString (g.data x y).red, jsNumToString (g.data x y).green,
        jsNumToString (g.data x y).blue]) 3 (fun _ _ => rfl)
  unfold pixelTokens
  rw [List.range_eq_range']
  have hidx : 3 * (b * g.width + a) + c = b * (g.width * 3) + (a * 3 + c) := by
    ring
  rw [hidx]
  rw [getElem?_flatMap_const _ (g.width * 3) hrowlen g.height 0 b (a * 3 + c) hb
    (by omega)]
  rw [Nat.zero_add, List.range_eq_range']
  rw [getElem?_flatMap_const (fun x => [jsNumToString (g.data x b).red,
    jsNumToString (g.data x b).green, jsNumToString (g.data x b).blue]) 3
    (fun _ => rfl) g.width 0 a c ha hc]
  rw [Nat.zero_add]

/-- Unfolding of the cell contents read produces (definitional). -/
theorem readTokens_data (ts : List String) (x y : Nat) :
    (readTokens ts).data x y =
      if x < toLength (parseIntTok ts 1) ∧ y < toLength (parseIntTok ts 2) then
        { red := parseIntTok ts (4 + 3 * (y * toLength (parseIntTok ts 1) + x)),
          green := parseIntTok ts (4 + 3 * (y * toLength (parseIntTok ts 1) + x) + 1),
          blue := parseIntTok ts (4 + 3 * (y * toLength (parseIntTok ts 1) + x) + 2) }
      else Color.default := rfl

/-- Skipping the four header tokens of the serialized text. -/
theorem serializeList_getElem_add4 (g : EditImage) (k : Nat) :
    (serializeList g)[k + 4]? = (pixelTokens g ++ [""])[k]? := by
  show ("P3" :: jsNatToString g.width :: jsNatToString g.height :: "255"
    :: (pixelTokens g ++ [""]))[k + 4]? = _
  have e : k + 4 = (((k + 1) + 1) + 1) + 1 := by omega
  rw [e, List.getElem?_cons_succ, List.getElem?_cons_succ,
    List.getElem?_cons_succ, List.getElem?_cons_succ]

/-- Re-reading the token list write produces recovers the grid: same
dimensions and, cell by cell, the same channel values, NaN included (a NaN
channel is printed as the token NaN, which parseInt turns back into NaN).
The hypothesis excludes zero-width grids, on which write throws. -/
theorem readTokens_serializeList (g : EditImage) (hw : 1 ≤ g.width) :
    (readTokens (serializeList g)).width = g.width ∧
    (readTokens (serializeList g)).height = g.height ∧
    ∀ a b : Nat, a < g.width → b < g.height →
      (readTokens (serializeList g)).data a b = g.data a b := by
  have ht1 : parseIntTok (serializeList g) 1
      = parseIntStr (jsNatToString g.width) := rfl
  have ht2 : parseIntTok (serializeList g) 2
      = parseIntStr (jsNatToString g.height) := rfl
  have hW : toLength (parseIntTok (serializeList g) 1) = g.width := by
    rw [ht1, parseIntStr_jsNatToString]
    exact Int.toNat_natCast _
  have hH : toLength (parseIntTok (serializeList g) 2) = g.height := by
    rw [ht2, parseIntStr_jsNatToString]
    exact Int.toNat_natCast _
  refine ⟨hW, hH, ?_⟩
  intro a b ha hb
  have hplen : (pixelTokens g).length = g.height * (g.width * 3) := by
    unfold pixelTokens
    simpa using length_flatMap_const (List.range g.height)
      (fun y => (List.range g.width).flatMap fun x =>
        [jsNumToString (g.data x y).red, jsNumToString (g.data x y).green,
         jsNumToString (g.data x y).blue]) (g.width * 3)
      (fun y _ => by
        simpa using length_flatMap_const (List.range g.width)
          (fun x => [jsNumToString (g.data x y).red,
            jsNumToString (g.data x y).green,
            jsNumToString (g.data x y).blue]) 3 (fun _ _ => rfl))
  have hba : b * g.width + a + 1 ≤ g.height * g.width := by
    calc b * g.width + a + 1 ≤ b * g.width + g.width := by omega
      _ = (b + 1) * g.width := by ring
      _ ≤ g.height * g.width := Nat.mul_le_mul_right g.width hb
  have hbound : ∀ c : Nat, c < 3 →
      3 * (b * g.width + a) + c < (pixelTokens g).length := by
    intro c hc
    rw [hplen]
    calc 3 * (b * g.width + a) + c
        < 3 * (b * g.width + a) + 3 := Nat.add_lt_add_left hc _
      _ = 3 * (b * g.width + a + 1) := by ring
      _ ≤ 3 * (g.height * g.width) := Nat.mul_le_mul_left 3 hba
      _ = g.height * (g.width * 3) := by ring
  have htok : ∀ c : Nat, c < 3 →
      (serializeList g)[3 * (b * g.width + a) + c + 4]?
        = [jsNumToString (g.data a b).red, jsNumToString (g.data a b).green,
           jsNumToString (g.data a b).blue][c]? := by
    intro c hc
    rw [serializeList_getElem_add4]
    rw [List.getElem?_append, if_pos (hbound c hc)]
    exact pixelTokens_getElem g a b ha hb c hc
  have hred : parseIntTok (serializeList g) (4 + 3 * (b * g.width + a))
      = (g.data a b).red := by
    unfold parseIntTok
    rw [show 4 + 3 * (b * g.width + a) = 3 * (b * g.width + a) + 0 + 4 from by
      omega]
    rw [htok 0 (by omega)]
    exact parseIntStr_jsNumToString _
  have hgreen : parseIntTok (serializeList g) (4 + 3 * (b * g.width + a) + 1)
      = (g.data a b).green := by
    unfold parseIntTok
    rw [show 4 + 3 * (b * g.width + a) + 1 = 3 * (b * g.width + a) + 1 + 4 from by
      omega]
    rw [htok 1 (by omega)]
    exact parseIntStr_jsNumToString _
  have hblue : parseIntTok (serializeList g) (4 + 3 * (b * g.width + a) + 2)
      = (g.data a b).blue := by
    unfold parseIntTok
    rw [show 4 + 3 * (b * g.width + a) + 2 = 3 * (b * g.width + a) + 2 + 4 from by
      omega]
    rw [htok 2 (by omega)]
    exact parseIntStr_jsNumToString _
  rw [readTokens_data, hW, hH, if_pos ⟨ha, hb⟩, hred, hgreen, hblue]

/-- C7 counterexample: the text P3 0 2 255 parses successfully (read is
total and returns a grid of width 0 and height 2), yet its serialization
does not exist: write throws reading getHeight on the empty pixels array,
so no token list can be its round-trip re-parse.  The claim as stated,
quantified over every text that parses into a grid, therefore fails. -/
theorem roundtrip_c7_counterexample :
    (readTokens ["P3", "0", "2", "255"]).width = 0 ∧
    (readTokens ["P3", "0", "2", "255"]).height = 2 ∧
    ∀ ts' : List String,
      ¬ serializeTokens (readTokens ["P3", "0", "2", "255"]) = some ts' := by
  refine ⟨rfl, rfl, ?_⟩
  intro ts' h
  have hn : serializeTokens (readTokens ["P3", "0", "2", "255"]) = none := rfl
  rw [hn] at h
  exact Option.noConfusion h

/-- C7 (amended): for every text whose parsed grid has at least one column,
the serialization exists and re-parsing it yields the same width, the same
height and the same Color value at every cell (the texts need not be
byte-identical; for zero-width parses write itself throws). -/
theorem roundtrip_c7 (ts : List String) (hw : 1 ≤ (readTokens ts).width) :
    ∃ ts' : List String, serializeTokens (readTokens ts) = some ts' ∧
      (readTokens ts').width = (readTokens ts).width ∧
      (readTokens ts').height = (readTokens ts).height ∧
      ∀ a b : Nat, a < (readTokens ts).width → b < (readTokens ts).height →
        (readTokens ts').data a b = (readTokens ts).data a b := by
  rcases readTokens_serializeList (readTokens ts) hw with ⟨h1, h2, h3⟩
  refine ⟨serializeList (readTokens ts), ?_, h1, h2, h3⟩
  unfold serializeTokens
  rw [if_neg (by omega)]

/-- A concrete 1 by 1 input for the round-trip witness. -/
def c7Tokens : List String := ["P3", "1", "1", "255", "9", "8", "7"]

theorem roundtrip_c7_witness :
    1 ≤ (readTokens c7Tokens).width ∧
    (∃ ts' : List String, serializeTokens (readTokens c7Tokens) = some ts' ∧
      (readTokens ts').width = (readTokens c7Tokens).width ∧
      (readTokens ts').height = (readTokens c7Tokens).height ∧
      ∀ a b : Nat, a < (readTokens c7Tokens).width →
        b < (readTokens c7Tokens).height →
        (readTokens ts').data a b = (readTokens c7Tokens).data a b) :=
  ⟨by decide, roundtrip_c7 c7Tokens (by decide)⟩
